import Mathlib

set_option linter.unusedVariables false

/-!
Shallow embedding of `app/backend/prepdocs.py` (document-ingestion driver for
an Azure Cognitive Search index) together with a spec-derived model of the
`prepdocslib` pipeline that the driver composes.  The driver itself —
`setup_file_strategy`, the action dispatch, and `main` — is translated
directly from the source; the library the driver calls into (FileStrategy's
run loop, the text splitter, the blob manager, the search manager) is not
part of the visible source, so those operations are modelled from the
specification and marked as such in their doc comments.
-/

/-- Command-line argument record of prepdocs.py (the argparse surface).
Store-true flags are booleans; arguments whose defaults come from the
environment may be absent. -/
structure Args where
  files : String
  useacls : Bool
  storageaccount : String
  category : Option String
  container : String
  storagekey : Option String
  tenantid : Option String
  searchservice : String
  index : String
  searchkey : Option String
  searchanalyzername : String
  openaihost : String
  openaiservice : String
  openaideployment : String
  openaimodelname : String
  novectors : Bool
  disablebatchvectors : Bool
  remove : Bool
  removeall : Bool
  formrecognizerservice : Option String
  formrecognizerkey : Option String
  verbose : Bool
deriving DecidableEq

/-- Process environment values read directly by the driver
(`os.getenv("OPENAI_API_KEY")`). -/
structure Env where
  openai_api_key : Option String
deriving DecidableEq

/-- A key credential; the wrapped key may be absent when the corresponding
environment variable is unset. -/
structure AzureKeyCredential where
  key : Option String
deriving DecidableEq

/-- Blob-storage client configuration, as built by `setup_file_strategy`. -/
structure BlobManager where
  endpoint : String
  container : String
  credential : Option String
  verbose : Bool
deriving DecidableEq

/-- Form-Recognizer-backed PDF parsing configuration, as built by
`setup_file_strategy`. -/
structure DocumentAnalysisPdfParser where
  endpoint : String
  credential : AzureKeyCredential
  verbose : Bool
deriving DecidableEq

/-- Azure OpenAI embedding-service configuration, as built by
`setup_file_strategy` when vectors are enabled and the host is Azure. -/
structure AzureOpenAIEmbeddingService where
  open_ai_service : String
  open_ai_deployment : String
  open_ai_model_name : String
  credential : AzureKeyCredential
  disable_batch : Bool
  verbose : Bool
deriving DecidableEq

/-- Source-listing configuration.  prepdocs.py only ever constructs the
local-files variant (`LocalListFileStrategy(path_pattern=args.files, ...)`). -/
inductive ListFileStrategy where
  | localFiles (path_pattern : String) (verbose : Bool)
deriving DecidableEq

/-- The path/pattern a list strategy enumerates. -/
def ListFileStrategy.pattern : ListFileStrategy → String
  | ListFileStrategy.localFiles p _ => p

/-- Modelled from the spec: the Text Splitter's configuration is its maximum
section length; prepdocs.py constructs `TextSplitter()` with the library's
default configuration (the spec fixes only that the bound exists). -/
structure TextSplitter where
  max_section_length : Nat := 1000
deriving DecidableEq

/-- The three invocation modes of a run. -/
inductive DocumentAction where
  | Add
  | Remove
  | RemoveAll
deriving DecidableEq

/-- The fully composed pipeline, mirroring the `FileStrategy(...)` constructor
call at the end of `setup_file_strategy`. -/
structure FileStrategy where
  list_file_strategy : ListFileStrategy
  blob_manager : BlobManager
  pdfParser : DocumentAnalysisPdfParser
  text_splitter : TextSplitter
  document_action : DocumentAction
  embeddings : Option AzureOpenAIEmbeddingService
  search_analyzer_name : String
  use_acls : Bool
  category : Option String
deriving DecidableEq

/-- Fatal configuration failures of the driver (`exit(1)` paths). -/
inductive ConfigError where
  | missingFormRecognizerService
deriving DecidableEq

/-- `is_key_empty` from prepdocs.py. -/
def is_key_empty (key : Option String) : Bool :=
  match key with
  | none => true
  | some k => k.trim.length == 0

/-- `setup_file_strategy` from prepdocs.py: builds the blob manager, checks
the Form Recognizer configuration (exiting with an error when the service
name is absent), selects the embedding service, the file lister and the
document action, and assembles the FileStrategy. -/
def setup_file_strategy (env : Env) (args : Args) : Except ConfigError FileStrategy :=
  let storage_creds := args.storagekey
  let blob_manager : BlobManager :=
    { endpoint := "https://" ++ args.storageaccount ++ ".blob.core.windows.net"
      container := args.container
      credential := storage_creds
      verbose := args.verbose }
  match args.formrecognizerservice with
  | none => Except.error ConfigError.missingFormRecognizerService
  | some frservice =>
    let formrecognizer_creds : AzureKeyCredential := { key := args.formrecognizerkey }
    let pdfP : DocumentAnalysisPdfParser :=
      { endpoint := "https://" ++ frservice ++ ".cognitiveservices.azure.com/"
        credential := formrecognizer_creds
        verbose := args.verbose }
    let use_vectors := !args.novectors
    let embeddings : Option AzureOpenAIEmbeddingService :=
      if use_vectors && args.openaihost != "openai" then
        some
          { open_ai_service := args.openaiservice
            open_ai_deployment := args.openaideployment
            open_ai_model_name := args.openaimodelname
            credential := { key := env.openai_api_key }
            disable_batch := args.disablebatchvectors
            verbose := args.verbose }
      else none
    let list_file_strategy : ListFileStrategy :=
      ListFileStrategy.localFiles args.files args.verbose
    let document_action :=
      if args.removeall then DocumentAction.RemoveAll
      else if args.remove then DocumentAction.Remove
      else DocumentAction.Add
    Except.ok
      { list_file_strategy := list_file_strategy
        blob_manager := blob_manager
        pdfParser := pdfP
        text_splitter := {}
        document_action := document_action
        embeddings := embeddings
        search_analyzer_name := args.searchanalyzername
        use_acls := args.useacls
        category := args.category }

/-- Search-service configuration built inside `main`. -/
structure SearchInfo where
  endpoint : String
  credential : Option String
  index_name : String
  verbose : Bool
deriving DecidableEq

/-- The two strategy invocations `main` can make, in call order. -/
inductive MainEvent where
  | setupCall
  | runCall
deriving DecidableEq

/-- `main` from prepdocs.py (named `mainRun` here, since Lean reserves the
name `main` for executables): builds the SearchInfo, calls `strategy.setup`
only when neither removal flag is set, then always calls `strategy.run`.
The returned list is the sequence of strategy invocations in order. -/
def mainRun (args : Args) : SearchInfo × List MainEvent :=
  let search_creds := args.searchkey
  let search_info : SearchInfo :=
    { endpoint := "https://" ++ args.searchservice ++ ".search.windows.net/"
      credential := search_creds
      index_name := args.index
      verbose := args.verbose }
  (search_info,
    (if !args.remove && !args.removeall then [MainEvent.setupCall] else [])
      ++ [MainEvent.runCall])

/-- Modelled from the spec: a SourceDocument is a stable identity plus the
ordered extracted text of its pages; the concrete byte parsing is an external
collaborator, so a document carries its extracted page texts directly. -/
structure SourceDocument where
  id : String
  pages : List (List Char)
deriving DecidableEq

/-- Modelled from the spec: the Content Parser yields the document's pages in
order; the document's extracted text is their concatenation. -/
def extractedText (doc : SourceDocument) : List Char :=
  doc.pages.flatten

/-- Fuel-indexed chunking: repeatedly take at most `n` elements.  With fuel
at least the list length and positive `n` the fuel never runs out. -/
def chunkFuel {α : Type} (n : Nat) : Nat → List α → List (List α)
  | _, [] => []
  | 0, x :: xs => [x :: xs]
  | fuel + 1, x :: xs => (x :: xs).take n :: chunkFuel n fuel ((x :: xs).drop n)

/-- Modelled from the spec: the Text Splitter cuts the extracted text into
consecutive sections of at most `maxLen` characters whose concatenation is
the original text. -/
def splitText (maxLen : Nat) (text : List Char) : List (List Char) :=
  chunkFuel maxLen text.length text

/-- `TextSplitter.split`: split under the splitter's configured bound. -/
def TextSplitter.split (ts : TextSplitter) (text : List Char) : List (List Char) :=
  splitText ts.max_section_length text

/-- Deterministic index-record key: document identity plus section ordinal. -/
abbrev EntryId := String × Nat

/-- Modelled from the spec: the persisted index record for one section. -/
structure SearchIndexEntry where
  id : EntryId
  content : List Char
  embedding : Option (List Nat)
  category : Option String
  sourceRef : String
deriving DecidableEq

/-- The fixed embedding dimension of the configured model for a run. -/
def embedDim : Nat := 1536

/-- Modelled from the spec: the Embedding Provider computes one
fixed-dimension vector per section text; the numeric values are produced by
an external service, so only determinism and dimension are represented. -/
def embedVec (model : String) (text : List Char) : List Nat :=
  List.replicate embedDim text.length

/-- Modelled from the spec: the index entries an Add run derives from one
document — one entry per section, keyed by document identity and ordinal,
carrying the section text, the optional vector, the run category and the
source reference. -/
def sectionEntries (emb : Option AzureOpenAIEmbeddingService) (cat : Option String)
    (maxLen : Nat) (doc : SourceDocument) : List SearchIndexEntry :=
  (splitText maxLen (extractedText doc)).enum.map (fun p =>
    { id := (doc.id, p.1)
      content := p.2
      embedding := Option.map (fun cfg => embedVec cfg.open_ai_model_name p.2) emb
      category := cat
      sourceRef := doc.id })

/-- Modelled from the spec: index upsert keyed by the deterministic id —
re-upserting an existing id replaces the prior record, a new id is appended. -/
def upsertEntry : List SearchIndexEntry → SearchIndexEntry → List SearchIndexEntry
  | [], e => [e]
  | x :: xs, e => if x.id = e.id then e :: xs else x :: upsertEntry xs e

/-- Upsert a batch of records in order. -/
def upsertEntries (l : List SearchIndexEntry) (es : List SearchIndexEntry) :
    List SearchIndexEntry :=
  es.foldl upsertEntry l

/-- The kinds of stored artifacts: the original document bytes, or one page
rendering. -/
inductive ArtifactKind where
  | original
  | pageRendering (page : Nat)
deriving DecidableEq

/-- Modelled from the spec: an Artifact-Store object, keyed by the identity
of the source document it was derived from. -/
structure Artifact where
  sourceRef : String
  kind : ArtifactKind
deriving DecidableEq

/-- Modelled from the spec: artifact upload keyed by document identity —
re-uploading the artifact of the same source is a replacement, represented
here as insert-if-absent since artifacts carry no further payload. -/
def uploadArtifact (l : List Artifact) (a : Artifact) : List Artifact :=
  if a ∈ l then l else l ++ [a]

/-- Modelled from the spec: the artifacts an Add run uploads for one
document — always the original bytes, plus one rendering per page exactly
when the access-control mode requires per-page artifacts. -/
def docArtifacts (use_acls : Bool) (doc : SourceDocument) : List Artifact :=
  { sourceRef := doc.id, kind := ArtifactKind.original } ::
    (if use_acls then
      (List.range doc.pages.length).map
        (fun i => { sourceRef := doc.id, kind := ArtifactKind.pageRendering i })
    else [])

/-- Network side effects of a run, in issue order. -/
inductive NetEffect where
  | ensureSchema (index_name : String)
  | parseCall (sourceRef : String)
  | embedCall
  | blobUpload (sourceRef : String)
  | pageUpload (sourceRef : String) (page : Nat)
  | indexUpsert (id : EntryId)
  | blobDeleteForSource (path : String)
  | indexDeleteBySource (path : String)
  | blobDeleteAll
  | indexDeleteAll
deriving DecidableEq

/-- The upload effect an artifact of each kind produces. -/
def artifactEffect (a : Artifact) : NetEffect :=
  match a.kind with
  | ArtifactKind.original => NetEffect.blobUpload a.sourceRef
  | ArtifactKind.pageRendering i => NetEffect.pageUpload a.sourceRef i

/-- Modelled from the spec: embedding calls for one document's sections —
none without a provider; one call per section when batching is disabled;
one batched call (when there is at least one section) otherwise. -/
def embedEffects (emb : Option AzureOpenAIEmbeddingService) (nSections : Nat) :
    List NetEffect :=
  match emb with
  | none => []
  | some cfg =>
    if cfg.disable_batch then List.replicate nSections NetEffect.embedCall
    else if nSections = 0 then [] else [NetEffect.embedCall]

/-- The externally persisted state a run mutates: the index entries and the
artifact store. -/
structure PipelineState where
  entries : List SearchIndexEntry
  artifacts : List Artifact
deriving DecidableEq

/-- Modelled from the spec: the Add step for one document — parse, split,
optionally embed, upload the original bytes (and page renderings in
access-control mode), and upsert one entry per section under its
deterministic id.  Returns the new state and the network effects issued. -/
def runAddDoc (emb : Option AzureOpenAIEmbeddingService) (use_acls : Bool)
    (cat : Option String) (maxLen : Nat) (st : PipelineState) (doc : SourceDocument) :
    PipelineState × List NetEffect :=
  let sections := splitText maxLen (extractedText doc)
  let es := sectionEntries emb cat maxLen doc
  let arts := docArtifacts use_acls doc
  ({ entries := upsertEntries st.entries es
     artifacts := arts.foldl uploadArtifact st.artifacts },
   NetEffect.parseCall doc.id ::
     (embedEffects emb sections.length
       ++ arts.map artifactEffect
       ++ es.map (fun e => NetEffect.indexUpsert e.id)))

/-- Modelled from the spec: the Add action processes the listed documents in
order, threading the external state and concatenating effects. -/
def runAdd (emb : Option AzureOpenAIEmbeddingService) (use_acls : Bool)
    (cat : Option String) (maxLen : Nat) :
    List SourceDocument → PipelineState → PipelineState × List NetEffect
  | [], st => (st, [])
  | d :: ds, st =>
    let r := runAddDoc emb use_acls cat maxLen st d
    let rest := runAdd emb use_acls cat maxLen ds r.1
    (rest.1, r.2 ++ rest.2)

/-- Modelled from the spec: Remove deletes the artifacts and the index
entries whose source reference equals the given path, and nothing else. -/
def runRemove (path : String) (st : PipelineState) : PipelineState × List NetEffect :=
  ({ entries := st.entries.filter (fun e => e.sourceRef != path)
     artifacts := st.artifacts.filter (fun a => a.sourceRef != path) },
   [NetEffect.blobDeleteForSource path, NetEffect.indexDeleteBySource path])

/-- Modelled from the spec: RemoveAll deletes every artifact and every index
entry, ignoring any path filter. -/
def runRemoveAll (st : PipelineState) : PipelineState × List NetEffect :=
  ({ entries := [], artifacts := [] },
   [NetEffect.blobDeleteAll, NetEffect.indexDeleteAll])

/-- Modelled from the spec: `FileStrategy.run` dispatches on the configured
document action.  `docs` is the (finite) enumeration the Source Lister
yields for the run's path pattern. -/
def runStrategy (fs : FileStrategy) (docs : List SourceDocument) (st : PipelineState) :
    PipelineState × List NetEffect :=
  match fs.document_action with
  | DocumentAction.Add =>
    runAdd fs.embeddings fs.use_acls fs.category fs.text_splitter.max_section_length docs st
  | DocumentAction.Remove => runRemove fs.list_file_strategy.pattern st
  | DocumentAction.RemoveAll => runRemoveAll st

/-- The whole process: `setup_file_strategy`, then `main` (schema setup when
neither removal flag is set, then the run).  A configuration error aborts
before anything else happens, so it issues no network effects. -/
def programRun (env : Env) (args : Args) (docs : List SourceDocument)
    (st : PipelineState) : List NetEffect :=
  match setup_file_strategy env args with
  | Except.error _ => []
  | Except.ok fs =>
    (if !args.remove && !args.removeall then [NetEffect.ensureSchema args.index] else [])
      ++ (runStrategy fs docs st).2

/-- First index record with the given id, if any. -/
def findById : List SearchIndexEntry → EntryId → Option SearchIndexEntry
  | [], _ => none
  | x :: xs, i => if x.id = i then some x else findById xs i

/-- Concrete environment with no OPENAI_API_KEY set, for instantiations. -/
def envNone : Env := { openai_api_key := none }

/-- A concrete, fully populated argument record used to instantiate the
theorems below; individual instantiations override single fields. -/
def baseArgs : Args :=
  { files := "data"
    useacls := false
    storageaccount := "acct"
    category := none
    container := "content"
    storagekey := none
    tenantid := none
    searchservice := "search"
    index := "idx"
    searchkey := none
    searchanalyzername := "en.microsoft"
    openaihost := "azure"
    openaiservice := "oai"
    openaideployment := "ada2"
    openaimodelname := "text-embedding-ada-002"
    novectors := false
    disablebatchvectors := false
    remove := false
    removeall := false
    formrecognizerservice := some "fr"
    formrecognizerkey := none
    verbose := false }

/-- The embedding service `setup_file_strategy envNone baseArgs` configures. -/
def baseEmb : AzureOpenAIEmbeddingService :=
  { open_ai_service := "oai"
    open_ai_deployment := "ada2"
    open_ai_model_name := "text-embedding-ada-002"
    credential := { key := none }
    disable_batch := false
    verbose := false }

/-- The FileStrategy `setup_file_strategy envNone baseArgs` assembles. -/
def baseFs : FileStrategy :=
  { list_file_strategy := ListFileStrategy.localFiles "data" false
    blob_manager :=
      { endpoint := "https://acct.blob.core.windows.net"
        container := "content"
        credential := none
        verbose := false }
    pdfParser :=
      { endpoint := "https://fr.cognitiveservices.azure.com/"
        credential := { key := none }
        verbose := false }
    text_splitter := {}
    document_action := DocumentAction.Add
    embeddings := some baseEmb
    search_analyzer_name := "en.microsoft"
    use_acls := false
    category := none }

/-- A small concrete document for instantiations. -/
def docW : SourceDocument := { id := "policy.doc", pages := [['a', 'b'], ['c']] }

/-- A second concrete document with a different source path. -/
def docV : SourceDocument := { id := "other.doc", pages := [['x']] }

/-- The empty external state. -/
def stEmpty : PipelineState := { entries := [], artifacts := [] }

/-- A concrete index entry derived from `docW`. -/
def entryW : SearchIndexEntry :=
  { id := ("policy.doc", 0)
    content := ['a']
    embedding := none
    category := none
    sourceRef := "policy.doc" }

/-- A concrete index entry derived from `docV`. -/
def entryV : SearchIndexEntry :=
  { id := ("other.doc", 0)
    content := ['x']
    embedding := none
    category := none
    sourceRef := "other.doc" }

/-- A concrete stored artifact of `docW`. -/
def artW : Artifact := { sourceRef := "policy.doc", kind := ArtifactKind.original }

/-- A concrete stored artifact of `docV`. -/
def artV : Artifact := { sourceRef := "other.doc", kind := ArtifactKind.original }

/-- A concrete external state holding entries and artifacts of two distinct
documents. -/
def stTwo : PipelineState :=
  { entries := [entryW, entryV], artifacts := [artW, artV] }

/-- A concrete Remove-configured strategy whose path is `docW`'s. -/
def fsRem : FileStrategy :=
  { baseFs with
    document_action := DocumentAction.Remove
    list_file_strategy := ListFileStrategy.localFiles "policy.doc" false }

/-! ## Helper lemmas -/

/-- Unfolding `setup_file_strategy` on the success path: every field of the
returned FileStrategy in terms of the arguments. -/
theorem setup_file_strategy_ok_fields (env : Env) (args : Args) (fs : FileStrategy)
    (hok : setup_file_strategy env args = Except.ok fs) :
    fs.document_action =
        (if args.removeall then DocumentAction.RemoveAll
         else if args.remove then DocumentAction.Remove
         else DocumentAction.Add)
      ∧ fs.embeddings =
        (if !args.novectors && args.openaihost != "openai" then
          some
            { open_ai_service := args.openaiservice
              open_ai_deployment := args.openaideployment
              open_ai_model_name := args.openaimodelname
              credential := { key := env.openai_api_key }
              disable_batch := args.disablebatchvectors
              verbose := args.verbose }
        else none)
      ∧ fs.use_acls = args.useacls
      ∧ fs.category = args.category
      ∧ fs.text_splitter = {}
      ∧ fs.list_file_strategy = ListFileStrategy.localFiles args.files args.verbose := by
  cases h : args.formrecognizerservice with
  | none => simp [setup_file_strategy, h] at hok
  | some s =>
    simp only [setup_file_strategy, h, Except.ok.injEq] at hok
    subst hok
    refine ⟨rfl, rfl, rfl, rfl, rfl, rfl⟩

/-- With enough fuel and a positive bound, concatenating the chunks gives
back the original list. -/
theorem chunkFuel_flatten {α : Type} (n : Nat) (hn : 0 < n) :
    ∀ fuel (l : List α), l.length ≤ fuel → (chunkFuel n fuel l).flatten = l := by
  intro fuel
  induction fuel with
  | zero =>
    intro l hl
    cases l with
    | nil => rfl
    | cons x xs => simp at hl
  | succ fuel ih =>
    intro l hl
    cases l with
    | nil => rfl
    | cons x xs =>
      simp only [chunkFuel, List.flatten_cons]
      have hfuel : ((x :: xs).drop n).length ≤ fuel := by
        have hd : ((x :: xs).drop n).length = (x :: xs).length - n := List.length_drop n _
        have hlen : (x :: xs).length = xs.length + 1 := List.length_cons x xs
        have hn' : 1 ≤ n := hn
        omega
      rw [ih ((x :: xs).drop n) hfuel]
      exact List.take_append_drop n (x :: xs)

/-- With enough fuel and a positive bound, every chunk respects the bound. -/
theorem chunkFuel_length_le {α : Type} (n : Nat) (hn : 0 < n) :
    ∀ fuel (l : List α), l.length ≤ fuel →
      ∀ c ∈ chunkFuel n fuel l, c.length ≤ n := by
  intro fuel
  induction fuel with
  | zero =>
    intro l hl c hc
    cases l with
    | nil => simp [chunkFuel] at hc
    | cons x xs => simp at hl
  | succ fuel ih =>
    intro l hl c hc
    cases l with
    | nil => simp [chunkFuel] at hc
    | cons x xs =>
      simp only [chunkFuel, List.mem_cons] at hc
      rcases hc with hc | hc
      · subst hc
        have := List.length_take n (x :: xs)
        omega
      · refine ih ((x :: xs).drop n) ?_ c hc
        have hd : ((x :: xs).drop n).length = (x :: xs).length - n := List.length_drop n _
        have hlen : (x :: xs).length = xs.length + 1 := List.length_cons x xs
        have hn' : 1 ≤ n := hn
        omega

/-- Concatenating `splitText`'s sections gives back the text. -/
theorem splitText_flatten (maxLen : Nat) (hn : 0 < maxLen) (text : List Char) :
    (splitText maxLen text).flatten = text :=
  chunkFuel_flatten maxLen hn text.length text (Nat.le_refl _)

/-- Every section `splitText` produces respects the (positive) bound. -/
theorem splitText_length_le (maxLen : Nat) (hn : 0 < maxLen) (text : List Char) :
    ∀ c ∈ splitText maxLen text, c.length ≤ maxLen :=
  chunkFuel_length_le maxLen hn text.length text (Nat.le_refl _)

/-- Membership after an upsert: the element was already there or is the
upserted record. -/
theorem mem_upsertEntry (l : List SearchIndexEntry) (x e : SearchIndexEntry)
    (h : e ∈ upsertEntry l x) : e ∈ l ∨ e = x := by
  induction l with
  | nil =>
    simp [upsertEntry] at h
    exact Or.inr h
  | cons y ys ih =>
    by_cases hid : y.id = x.id
    · simp only [upsertEntry, if_pos hid, List.mem_cons] at h
      rcases h with h | h
      · exact Or.inr h
      · exact Or.inl (List.mem_cons_of_mem _ h)
    · simp only [upsertEntry, if_neg hid, List.mem_cons] at h
      rcases h with h | h
      · exact Or.inl (h ▸ List.mem_cons_self _ _)
      · rcases ih h with h' | h'
        · exact Or.inl (List.mem_cons_of_mem _ h')
        · exact Or.inr h'

/-- Membership after a batch upsert: the element was already there or is one
of the upserted records. -/
theorem mem_upsertEntries (es : List SearchIndexEntry) :
    ∀ (l : List SearchIndexEntry) (e : SearchIndexEntry),
      e ∈ upsertEntries l es → e ∈ l ∨ e ∈ es := by
  induction es with
  | nil =>
    intro l e h
    exact Or.inl h
  | cons x xs ih =>
    intro l e h
    have h' : e ∈ upsertEntries (upsertEntry l x) xs := h
    rcases ih (upsertEntry l x) e h' with h'' | h''
    · rcases mem_upsertEntry l x e h'' with h3 | h3
      · exact Or.inl h3
      · exact Or.inr (h3 ▸ List.mem_cons_self _ _)
    · exact Or.inr (List.mem_cons_of_mem _ h'')

/-- Upserting a record that is already present (as the first record with its
id) changes nothing. -/
theorem upsertEntry_of_findById (l : List SearchIndexEntry) (e : SearchIndexEntry)
    (h : findById l e.id = some e) : upsertEntry l e = l := by
  induction l with
  | nil => simp [findById] at h
  | cons x xs ih =>
    by_cases hid : x.id = e.id
    · simp only [findById, if_pos hid, Option.some.injEq] at h
      simp [upsertEntry, hid, h]
    · simp only [findById, if_neg hid] at h
      have hid' : ¬ x.id = e.id := hid
      simp [upsertEntry, hid', ih h]

/-- After upserting `e`, the first record with `e`'s id is `e`. -/
theorem findById_upsertEntry_self (l : List SearchIndexEntry) (e : SearchIndexEntry) :
    findById (upsertEntry l e) e.id = some e := by
  induction l with
  | nil => simp [upsertEntry, findById]
  | cons x xs ih =>
    by_cases hid : x.id = e.id
    · simp [upsertEntry, hid, findById]
    · simp [upsertEntry, hid, findById, ih]

/-- Upserting `e` does not change lookups at other ids. -/
theorem findById_upsertEntry_ne (l : List SearchIndexEntry) (e : SearchIndexEntry)
    (i : EntryId) (hne : i ≠ e.id) :
    findById (upsertEntry l e) i = findById l i := by
  have hei : ¬ e.id = i := fun h => hne h.symm
  induction l with
  | nil => simp [upsertEntry, findById, hei]
  | cons x xs ih =>
    by_cases hid : x.id = e.id
    · have hxi : ¬ x.id = i := fun h => hne (h ▸ hid)
      simp [upsertEntry, hid, findById, hxi, hei]
    · by_cases hxi : x.id = i
      · simp [upsertEntry, hid, findById, hxi, hne, hei]
      · simp [upsertEntry, hid, findById, hxi, ih]

/-- A batch upsert of records with other ids does not change a lookup. -/
theorem findById_upsertEntries_not_mem (es : List SearchIndexEntry) :
    ∀ (l : List SearchIndexEntry) (i : EntryId),
      i ∉ es.map SearchIndexEntry.id →
      findById (upsertEntries l es) i = findById l i := by
  induction es with
  | nil => intro l i hi; rfl
  | cons x xs ih =>
    intro l i hi
    simp only [List.map_cons, List.mem_cons] at hi
    push_neg at hi
    have h1 : findById (upsertEntries (upsertEntry l x) xs) i
        = findById (upsertEntry l x) i := ih (upsertEntry l x) i hi.2
    have h2 : findById (upsertEntry l x) i = findById l i :=
      findById_upsertEntry_ne l x i hi.1
    exact h1.trans h2

/-- After a batch upsert of records with pairwise distinct ids, looking up
any of those ids finds exactly the upserted record. -/
theorem findById_upsertEntries_mem (es : List SearchIndexEntry)
    (hnd : (es.map SearchIndexEntry.id).Nodup) :
    ∀ (l : List SearchIndexEntry) (e : SearchIndexEntry), e ∈ es →
      findById (upsertEntries l es) e.id = some e := by
  induction es with
  | nil => intro l e he; simp at he
  | cons x xs ih =>
    intro l e he
    simp only [List.map_cons, List.nodup_cons] at hnd
    rcases List.mem_cons.mp he with he | he
    · subst he
      have h1 : findById (upsertEntries (upsertEntry l e) xs) e.id
          = findById (upsertEntry l e) e.id :=
        findById_upsertEntries_not_mem xs (upsertEntry l e) e.id hnd.1
      exact h1.trans (findById_upsertEntry_self l e)
    · exact ih hnd.2 (upsertEntry l x) e he

/-- A batch upsert of records that are each already the first record carrying
their id is the identity. -/
theorem upsertEntries_of_findById (es : List SearchIndexEntry) :
    ∀ (l : List SearchIndexEntry),
      (∀ e ∈ es, findById l e.id = some e) → upsertEntries l es = l := by
  induction es with
  | nil => intro l h; rfl
  | cons x xs ih =>
    intro l h
    have hx : upsertEntry l x = l :=
      upsertEntry_of_findById l x (h x (List.mem_cons_self _ _))
    have : upsertEntries (upsertEntry l x) xs = upsertEntry l x := by
      rw [hx]
      exact ih l (fun e he => h e (List.mem_cons_of_mem _ he))
    calc upsertEntries l (x :: xs) = upsertEntries (upsertEntry l x) xs := rfl
      _ = upsertEntry l x := this
      _ = l := hx

/-- Re-upserting the same batch of records (with pairwise distinct ids) a
second time changes nothing. -/
theorem upsertEntries_idem (l : List SearchIndexEntry) (es : List SearchIndexEntry)
    (hnd : (es.map SearchIndexEntry.id).Nodup) :
    upsertEntries (upsertEntries l es) es = upsertEntries l es :=
  upsertEntries_of_findById es (upsertEntries l es)
    (fun e he => findById_upsertEntries_mem es hnd l e he)

/-- The ids of one document's section entries, positionally. -/
theorem sectionEntries_map_id (emb : Option AzureOpenAIEmbeddingService)
    (cat : Option String) (maxLen : Nat) (doc : SourceDocument) :
    (sectionEntries emb cat maxLen doc).map SearchIndexEntry.id
      = ((splitText maxLen (extractedText doc)).enum.map Prod.fst).map
          (fun i => (doc.id, i)) := by
  simp only [sectionEntries, List.map_map]
  rfl

/-- Section ids within one document are pairwise distinct: the ordinal part
enumerates the section positions. -/
theorem sectionEntries_ids_nodup (emb : Option AzureOpenAIEmbeddingService)
    (cat : Option String) (maxLen : Nat) (doc : SourceDocument) :
    ((sectionEntries emb cat maxLen doc).map SearchIndexEntry.id).Nodup := by
  rw [sectionEntries_map_id]
  refine List.Nodup.map ?_ (List.nodup_enum_map_fst _)
  intro a b hab
  simpa using hab

/-- Unfolding: the state after processing a cons list of documents. -/
theorem runAdd_cons_fst (emb : Option AzureOpenAIEmbeddingService) (ua : Bool)
    (cat : Option String) (maxLen : Nat) (d : SourceDocument)
    (ds : List SourceDocument) (st : PipelineState) :
    (runAdd emb ua cat maxLen (d :: ds) st).1
      = (runAdd emb ua cat maxLen ds (runAddDoc emb ua cat maxLen st d).1).1 := rfl

/-- Unfolding: the effects of processing a cons list of documents. -/
theorem runAdd_cons_snd (emb : Option AzureOpenAIEmbeddingService) (ua : Bool)
    (cat : Option String) (maxLen : Nat) (d : SourceDocument)
    (ds : List SourceDocument) (st : PipelineState) :
    (runAdd emb ua cat maxLen (d :: ds) st).2
      = (runAddDoc emb ua cat maxLen st d).2
          ++ (runAdd emb ua cat maxLen ds (runAddDoc emb ua cat maxLen st d).1).2 := rfl

/-- Unfolding: the index entries after one document's Add step. -/
theorem runAddDoc_entries (emb : Option AzureOpenAIEmbeddingService) (ua : Bool)
    (cat : Option String) (maxLen : Nat) (st : PipelineState) (d : SourceDocument) :
    (runAddDoc emb ua cat maxLen st d).1.entries
      = upsertEntries st.entries (sectionEntries emb cat maxLen d) := rfl

/-- Without an embedding provider, no section entry carries a vector. -/
theorem sectionEntries_embedding_none (cat : Option String) (maxLen : Nat)
    (doc : SourceDocument) :
    ∀ e ∈ sectionEntries none cat maxLen doc, e.embedding = none := by
  intro e he
  simp only [sectionEntries, List.mem_map] at he
  obtain ⟨p, hp, rfl⟩ := he
  rfl

/-- Without an embedding provider, an Add run leaves every entry vector-free
(provided the prior entries were). -/
theorem runAdd_embedding_none (ua : Bool) (cat : Option String) (maxLen : Nat) :
    ∀ (docs : List SourceDocument) (st : PipelineState),
      (∀ e ∈ st.entries, e.embedding = none) →
      ∀ e ∈ (runAdd none ua cat maxLen docs st).1.entries, e.embedding = none := by
  intro docs
  induction docs with
  | nil => intro st h e he; exact h e he
  | cons d ds ih =>
    intro st h e he
    rw [runAdd_cons_fst] at he
    refine ih (runAddDoc none ua cat maxLen st d).1 ?_ e he
    intro e' he'
    rw [runAddDoc_entries] at he'
    rcases mem_upsertEntries (sectionEntries none cat maxLen d) st.entries e' he'
      with h' | h'
    · exact h e' h'
    · exact sectionEntries_embedding_none cat maxLen d e' h'

/-- An artifact upload is never an embedding call. -/
theorem artifactEffect_ne_embedCall (a : Artifact) :
    artifactEffect a ≠ NetEffect.embedCall := by
  cases a with
  | mk s k => cases k <;> simp [artifactEffect]

/-- Every embedding effect is an embedding call. -/
theorem mem_embedEffects (emb : Option AzureOpenAIEmbeddingService) (n : Nat)
    (x : NetEffect) (h : x ∈ embedEffects emb n) : x = NetEffect.embedCall := by
  cases emb with
  | none => simp [embedEffects] at h
  | some cfg =>
    by_cases hb : cfg.disable_batch
    · simp only [embedEffects, if_pos hb] at h
      exact List.eq_of_mem_replicate h
    · by_cases hn : n = 0
      · simp [embedEffects, hb, hn] at h
      · simp [embedEffects, hb, hn] at h
        exact h

/-- Without an embedding provider, one document's Add step makes no
embedding call. -/
theorem embedCall_not_mem_runAddDoc (ua : Bool) (cat : Option String)
    (maxLen : Nat) (st : PipelineState) (doc : SourceDocument) :
    NetEffect.embedCall ∉ (runAddDoc none ua cat maxLen st doc).2 := by
  intro h
  simp only [runAddDoc, embedEffects, List.nil_append, List.mem_cons,
    List.mem_append, List.mem_map] at h
  rcases h with h | h | h
  · exact NetEffect.noConfusion h
  · obtain ⟨a, ha, hEq⟩ := h
    exact artifactEffect_ne_embedCall a hEq
  · obtain ⟨e, he, hEq⟩ := h
    exact NetEffect.noConfusion hEq

/-- Without an embedding provider, an Add run makes no embedding call. -/
theorem embedCall_not_mem_runAdd (ua : Bool) (cat : Option String) (maxLen : Nat) :
    ∀ (docs : List SourceDocument) (st : PipelineState),
      NetEffect.embedCall ∉ (runAdd none ua cat maxLen docs st).2 := by
  intro docs
  induction docs with
  | nil => intro st h; simp [runAdd] at h
  | cons d ds ih =>
    intro st h
    rw [runAdd_cons_snd] at h
    rcases List.mem_append.mp h with h | h
    · exact embedCall_not_mem_runAddDoc ua cat maxLen st d h
    · exact ih (runAddDoc none ua cat maxLen st d).1 h

/-- A strategy whose embedding provider is absent never makes an embedding
call, whatever its action. -/
theorem embedCall_not_mem_runStrategy (fs : FileStrategy)
    (hemb : fs.embeddings = none) (docs : List SourceDocument) (st : PipelineState) :
    NetEffect.embedCall ∉ (runStrategy fs docs st).2 := by
  cases ha : fs.document_action with
  | Add =>
    simp only [runStrategy, ha, hemb]
    exact embedCall_not_mem_runAdd fs.use_acls fs.category
      fs.text_splitter.max_section_length docs st
  | Remove => simp [runStrategy, ha, runRemove]
  | RemoveAll => simp [runStrategy, ha, runRemoveAll]

/-! ## Claim theorems -/

/-- C1: for every argument set, `main` invokes `strategy.setup` if and only
if neither the remove flag nor the removeall flag is set — equivalently, if
and only if the selected document action is Add — and when setup is invoked
it completes before `strategy.run` begins (setup is the first event, run the
second). -/
theorem c1_main_setup_iff_add (env : Env) (args : Args) (fs : FileStrategy)
    (hok : setup_file_strategy env args = Except.ok fs) :
    (MainEvent.setupCall ∈ (mainRun args).2
        ↔ (args.remove = false ∧ args.removeall = false))
      ∧ (fs.document_action = DocumentAction.Add
        ↔ (args.remove = false ∧ args.removeall = false))
      ∧ (args.remove = false ∧ args.removeall = false →
          (mainRun args).2 = [MainEvent.setupCall, MainEvent.runCall])
      ∧ (args.remove = true ∨ args.removeall = true →
          (mainRun args).2 = [MainEvent.runCall]) := by
  have hact := (setup_file_strategy_ok_fields env args fs hok).1
  cases hr : args.remove <;> cases hra : args.removeall <;>
    simp [mainRun, hact, hr, hra]

/-- Witness for C1 at a concrete argument set with neither flag set: setup
is called first, then run. -/
theorem c1_main_setup_iff_add_witness :
    (mainRun baseArgs).2 = [MainEvent.setupCall, MainEvent.runCall] :=
  (c1_main_setup_iff_add envNone baseArgs baseFs rfl).2.2.1 ⟨rfl, rfl⟩

/-- C9: when both removal flags are set the selected action is RemoveAll
(removeall takes precedence over remove), and Add is selected exactly when
neither flag is set. -/
theorem c9_action_precedence (env : Env) (args : Args) (fs : FileStrategy)
    (hok : setup_file_strategy env args = Except.ok fs) :
    (args.remove = true → args.removeall = true →
        fs.document_action = DocumentAction.RemoveAll)
      ∧ (args.removeall = true → fs.document_action = DocumentAction.RemoveAll)
      ∧ (fs.document_action = DocumentAction.Add
        ↔ (args.remove = false ∧ args.removeall = false)) := by
  have hact := (setup_file_strategy_ok_fields env args fs hok).1
  cases hr : args.remove <;> cases hra : args.removeall <;> simp [hact, hr, hra]

/-- Witness for C9 at a concrete argument set with both flags set: the
assembled strategy's action is RemoveAll. -/
theorem c9_action_precedence_witness :
    ({ baseFs with document_action := DocumentAction.RemoveAll } : FileStrategy).document_action
      = DocumentAction.RemoveAll :=
  (c9_action_precedence envNone
      { baseArgs with remove := true, removeall := true }
      { baseFs with document_action := DocumentAction.RemoveAll } rfl).1 rfl rfl

/-- C3: when the Form Recognizer service name is absent,
`setup_file_strategy` reports a configuration error and the process aborts
with no network side effect at all — no blob upload, no index call, no
parse call. -/
theorem c3_missing_formrecognizer_aborts (env : Env) (args : Args)
    (h : args.formrecognizerservice = none) :
    setup_file_strategy env args
        = Except.error ConfigError.missingFormRecognizerService
      ∧ ∀ (docs : List SourceDocument) (st : PipelineState),
          programRun env args docs st = [] := by
  have hsetup : setup_file_strategy env args
      = Except.error ConfigError.missingFormRecognizerService := by
    simp [setup_file_strategy, h]
  refine ⟨hsetup, ?_⟩
  intro docs st
  simp [programRun, hsetup]

/-- Witness for C3 at a concrete argument set without a Form Recognizer
service: the error is reported and the run issues no network effect. -/
theorem c3_missing_formrecognizer_aborts_witness :
    setup_file_strategy envNone { baseArgs with formrecognizerservice := none }
        = Except.error ConfigError.missingFormRecognizerService
      ∧ programRun envNone { baseArgs with formrecognizerservice := none }
          [docW] stEmpty = [] :=
  ⟨(c3_missing_formrecognizer_aborts envNone
      { baseArgs with formrecognizerservice := none } rfl).1,
   (c3_missing_formrecognizer_aborts envNone
      { baseArgs with formrecognizerservice := none } rfl).2 [docW] stEmpty⟩

/-- Unfolding: adding an empty document list changes nothing. -/
theorem runAdd_nil (emb : Option AzureOpenAIEmbeddingService) (ua : Bool)
    (cat : Option String) (maxLen : Nat) (st : PipelineState) :
    runAdd emb ua cat maxLen [] st = (st, []) := rfl

/-- C2: with the novectors flag set, `setup_file_strategy` assembles the
FileStrategy with no embedding provider; consequently an Add run adds only
entries without an embedding field (every entry of the resulting index is
vector-free whenever the prior ones were) and never invokes the Embedding
Provider. -/
theorem c2_novectors_gates_vectors (env : Env) (args : Args) (fs : FileStrategy)
    (hnv : args.novectors = true)
    (hok : setup_file_strategy env args = Except.ok fs) :
    fs.embeddings = none
      ∧ (∀ (docs : List SourceDocument) (st : PipelineState),
          fs.document_action = DocumentAction.Add →
          (∀ e ∈ st.entries, e.embedding = none) →
          ∀ e ∈ (runStrategy fs docs st).1.entries, e.embedding = none)
      ∧ (∀ (docs : List SourceDocument) (st : PipelineState),
          NetEffect.embedCall ∉ (runStrategy fs docs st).2) := by
  have hemb := (setup_file_strategy_ok_fields env args fs hok).2.1
  have hembn : fs.embeddings = none := by
    rw [hemb, hnv]
    simp
  refine ⟨hembn, ?_, ?_⟩
  · intro docs st hAdd hprior e he
    simp only [runStrategy, hAdd, hembn] at he
    exact runAdd_embedding_none fs.use_acls fs.category
      fs.text_splitter.max_section_length docs st hprior e he
  · intro docs st
    exact embedCall_not_mem_runStrategy fs hembn docs st

/-- Witness for C2 at a concrete argument set with novectors set: the
strategy has no provider, the Add run's entries carry no vector, and no
embedding call is issued. -/
theorem c2_novectors_gates_vectors_witness :
    ({ baseFs with embeddings := none } : FileStrategy).embeddings = none
      ∧ (∀ e ∈ (runStrategy { baseFs with embeddings := none } [docW] stEmpty).1.entries,
          e.embedding = none)
      ∧ NetEffect.embedCall
          ∉ (runStrategy { baseFs with embeddings := none } [docW] stEmpty).2 := by
  have h := c2_novectors_gates_vectors envNone { baseArgs with novectors := true }
    { baseFs with embeddings := none } rfl rfl
  refine ⟨h.1, ?_, h.2.2 [docW] stEmpty⟩
  intro e he
  refine h.2.1 [docW] stEmpty rfl ?_ e he
  intro e' he'
  simp [stEmpty] at he'

/-- C10: with the openaihost argument equal to "openai", the embedding
provider is left unconfigured even though vectors are enabled, the
assembled strategy is the very one that setting novectors would produce,
and the run makes no embedding call. -/
theorem c10_openaihost_openai_no_embeddings (env : Env) (args : Args)
    (fs : FileStrategy) (hhost : args.openaihost = "openai")
    (hnv : args.novectors = false)
    (hok : setup_file_strategy env args = Except.ok fs) :
    fs.embeddings = none
      ∧ setup_file_strategy env { args with novectors := true } = Except.ok fs
      ∧ ∀ (docs : List SourceDocument) (st : PipelineState),
          NetEffect.embedCall ∉ (runStrategy fs docs st).2 := by
  have hemb := (setup_file_strategy_ok_fields env args fs hok).2.1
  have hembn : fs.embeddings = none := by
    rw [hemb, hhost]
    simp
  refine ⟨hembn, ?_, fun docs st => embedCall_not_mem_runStrategy fs hembn docs st⟩
  cases h : args.formrecognizerservice with
  | none => simp [setup_file_strategy, h] at hok
  | some s =>
    simp only [setup_file_strategy, h, Except.ok.injEq] at hok
    subst hok
    simp [setup_file_strategy, h, hhost, hnv]

/-- Witness for C10 at a concrete argument set with openaihost = "openai"
and vectors enabled: no provider is configured, and setting novectors
yields the same strategy. -/
theorem c10_openaihost_openai_no_embeddings_witness :
    ({ baseFs with embeddings := none } : FileStrategy).embeddings = none
      ∧ setup_file_strategy envNone
          { baseArgs with openaihost := "openai", novectors := true }
          = Except.ok { baseFs with embeddings := none } := by
  have h := c10_openaihost_openai_no_embeddings envNone
    { baseArgs with openaihost := "openai" } { baseFs with embeddings := none }
    rfl rfl rfl
  exact ⟨h.1, h.2.1⟩

/-- C4: running the Add action on an unchanged document twice yields the
same index entries (hence the same set of ids and contents) as running it
once — repeated Add runs converge to the same indexed state. -/
theorem c4_add_idempotent (fs : FileStrategy) (doc : SourceDocument)
    (st : PipelineState) (hAdd : fs.document_action = DocumentAction.Add) :
    (runStrategy fs [doc] (runStrategy fs [doc] st).1).1.entries
      = (runStrategy fs [doc] st).1.entries := by
  simp only [runStrategy, hAdd, runAdd_cons_fst, runAdd_nil, runAddDoc_entries]
  exact upsertEntries_idem st.entries _
    (sectionEntries_ids_nodup fs.embeddings fs.category
      fs.text_splitter.max_section_length doc)

/-- Witness for C4 at a concrete strategy, document and state: two Add runs
leave the same entries as one. -/
theorem c4_add_idempotent_witness :
    (runStrategy baseFs [docW] (runStrategy baseFs [docW] stEmpty).1).1.entries
      = (runStrategy baseFs [docW] stEmpty).1.entries :=
  c4_add_idempotent baseFs docW stEmpty rfl

/-- C5: a Remove run deletes exactly the index entries and artifacts whose
source reference equals the configured path; entries and artifacts of every
other document survive unchanged. -/
theorem c5_remove_isolation (fs : FileStrategy) (st : PipelineState)
    (hrm : fs.document_action = DocumentAction.Remove) :
    ∀ (docs : List SourceDocument),
      (∀ e, e ∈ (runStrategy fs docs st).1.entries
          ↔ (e ∈ st.entries ∧ e.sourceRef ≠ fs.list_file_strategy.pattern))
        ∧ (∀ a, a ∈ (runStrategy fs docs st).1.artifacts
          ↔ (a ∈ st.artifacts ∧ a.sourceRef ≠ fs.list_file_strategy.pattern)) := by
  intro docs
  simp only [runStrategy, hrm, runRemove]
  constructor
  · intro e
    simp [List.mem_filter, bne_iff_ne]
  · intro a
    simp [List.mem_filter, bne_iff_ne]

/-- Witness for C5 at a concrete two-document state: removing `docW`'s path
keeps `docV`'s entry and artifact and drops `docW`'s. -/
theorem c5_remove_isolation_witness :
    entryV ∈ (runStrategy fsRem [] stTwo).1.entries
      ∧ entryW ∉ (runStrategy fsRem [] stTwo).1.entries
      ∧ artV ∈ (runStrategy fsRem [] stTwo).1.artifacts
      ∧ artW ∉ (runStrategy fsRem [] stTwo).1.artifacts := by
  have h := c5_remove_isolation fsRem stTwo rfl []
  refine ⟨(h.1 entryV).mpr ⟨by decide, by decide⟩, ?_,
    (h.2 artV).mpr ⟨by decide, by decide⟩, ?_⟩
  · intro hmem
    exact ((h.1 entryW).mp hmem).2 (by decide)
  · intro hmem
    exact ((h.2 artW).mp hmem).2 (by decide)

/-- C6: a RemoveAll run leaves both the index and the artifact store empty,
whatever the prior state, and the configured path filter has no effect on
the result (two RemoveAll strategies with different paths and prior states
end in the same state). -/
theorem c6_removeall_total (fs fs' : FileStrategy)
    (h : fs.document_action = DocumentAction.RemoveAll)
    (h' : fs'.document_action = DocumentAction.RemoveAll) :
    ∀ (docs docs' : List SourceDocument) (st st' : PipelineState),
      (runStrategy fs docs st).1.entries = []
        ∧ (runStrategy fs docs st).1.artifacts = []
        ∧ (runStrategy fs docs st).1 = (runStrategy fs' docs' st').1 := by
  intro docs docs' st st'
  simp [runStrategy, h, h', runRemoveAll]

/-- Witness for C6 at two concrete RemoveAll strategies with different path
filters and different prior states: both end with an empty index and store. -/
theorem c6_removeall_total_witness :
    (runStrategy { baseFs with document_action := DocumentAction.RemoveAll }
        [docW] stTwo).1.entries = []
      ∧ (runStrategy { baseFs with document_action := DocumentAction.RemoveAll }
          [docW] stTwo).1.artifacts = []
      ∧ (runStrategy { baseFs with document_action := DocumentAction.RemoveAll }
          [docW] stTwo).1
        = (runStrategy
            { baseFs with
              document_action := DocumentAction.RemoveAll
              list_file_strategy := ListFileStrategy.localFiles "other" false }
            [] stEmpty).1 :=
  c6_removeall_total
    { baseFs with document_action := DocumentAction.RemoveAll }
    { baseFs with
      document_action := DocumentAction.RemoveAll
      list_file_strategy := ListFileStrategy.localFiles "other" false }
    rfl rfl [docW] [] stTwo stEmpty

/-- In access-control mode, every page of a document gets a rendering
uploaded by its Add step. -/
theorem pageUpload_mem_runAddDoc (emb : Option AzureOpenAIEmbeddingService)
    (cat : Option String) (maxLen : Nat) (st : PipelineState)
    (doc : SourceDocument) (i : Nat) (hi : i < doc.pages.length) :
    NetEffect.pageUpload doc.id i ∈ (runAddDoc emb true cat maxLen st doc).2 := by
  have ha : ({ sourceRef := doc.id, kind := ArtifactKind.pageRendering i } : Artifact)
      ∈ docArtifacts true doc := by
    refine List.mem_cons_of_mem _ ?_
    simp only [if_true, List.mem_map, List.mem_range]
    exact ⟨i, hi, rfl⟩
  have hmap : NetEffect.pageUpload doc.id i
      ∈ (docArtifacts true doc).map artifactEffect :=
    List.mem_map.mpr ⟨_, ha, rfl⟩
  exact List.mem_cons_of_mem _
    (List.mem_append_left _ (List.mem_append_right _ hmap))

/-- Every Add step uploads the original document bytes. -/
theorem blobUpload_mem_runAddDoc (emb : Option AzureOpenAIEmbeddingService)
    (ua : Bool) (cat : Option String) (maxLen : Nat) (st : PipelineState)
    (doc : SourceDocument) :
    NetEffect.blobUpload doc.id ∈ (runAddDoc emb ua cat maxLen st doc).2 := by
  have ha : ({ sourceRef := doc.id, kind := ArtifactKind.original } : Artifact)
      ∈ docArtifacts ua doc := List.mem_cons_self _ _
  have hmap : NetEffect.blobUpload doc.id
      ∈ (docArtifacts ua doc).map artifactEffect :=
    List.mem_map.mpr ⟨_, ha, rfl⟩
  exact List.mem_cons_of_mem _
    (List.mem_append_left _ (List.mem_append_right _ hmap))

/-- Outside access-control mode, an Add step uploads no page rendering at
all. -/
theorem pageUpload_not_mem_runAddDoc (emb : Option AzureOpenAIEmbeddingService)
    (cat : Option String) (maxLen : Nat) (st : PipelineState)
    (doc : SourceDocument) (p : String) (i : Nat) :
    NetEffect.pageUpload p i ∉ (runAddDoc emb false cat maxLen st doc).2 := by
  intro h
  have h' : NetEffect.pageUpload p i ∈
      NetEffect.parseCall doc.id ::
        (embedEffects emb (splitText maxLen (extractedText doc)).length
          ++ (docArtifacts false doc).map artifactEffect
          ++ (sectionEntries emb cat maxLen doc).map
              (fun e => NetEffect.indexUpsert e.id)) := h
  rcases List.mem_cons.mp h' with hc | hc
  · exact NetEffect.noConfusion hc
  rcases List.mem_append.mp hc with hc | hc
  · rcases List.mem_append.mp hc with hc | hc
    · exact NetEffect.noConfusion (mem_embedEffects emb _ _ hc)
    · have hda : docArtifacts false doc
          = [{ sourceRef := doc.id, kind := ArtifactKind.original }] := rfl
      rw [hda] at hc
      simp [artifactEffect] at hc
  · rcases List.mem_map.mp hc with ⟨e, he, hEq⟩
    exact NetEffect.noConfusion hEq

/-- C7: the strategy's access-control mode equals the useacls flag; in that
mode each document's Add step uploads a rendering for every page in
addition to the original bytes, and outside it no page rendering is ever
uploaded. -/
theorem c7_useacls_page_renderings (env : Env) (args : Args) (fs : FileStrategy)
    (hok : setup_file_strategy env args = Except.ok fs) :
    fs.use_acls = args.useacls
      ∧ (args.useacls = true → ∀ (st : PipelineState) (doc : SourceDocument),
          NetEffect.blobUpload doc.id
              ∈ (runAddDoc fs.embeddings fs.use_acls fs.category
                  fs.text_splitter.max_section_length st doc).2
            ∧ ∀ i < doc.pages.length,
              NetEffect.pageUpload doc.id i
                ∈ (runAddDoc fs.embeddings fs.use_acls fs.category
                    fs.text_splitter.max_section_length st doc).2)
      ∧ (args.useacls = false → ∀ (st : PipelineState) (doc : SourceDocument)
          (p : String) (i : Nat),
          NetEffect.pageUpload p i
            ∉ (runAddDoc fs.embeddings fs.use_acls fs.category
                fs.text_splitter.max_section_length st doc).2) := by
  have huse := (setup_file_strategy_ok_fields env args fs hok).2.2.1
  refine ⟨huse, ?_, ?_⟩
  · intro hacl st doc
    rw [huse, hacl]
    exact ⟨blobUpload_mem_runAddDoc fs.embeddings true fs.category
        fs.text_splitter.max_section_length st doc,
      fun i hi => pageUpload_mem_runAddDoc fs.embeddings fs.category
        fs.text_splitter.max_section_length st doc i hi⟩
  · intro hacl st doc p i
    rw [huse, hacl]
    exact pageUpload_not_mem_runAddDoc fs.embeddings fs.category
      fs.text_splitter.max_section_length st doc p i

/-- Witness for C7 at a concrete argument set with useacls set: the first
page of the concrete document gets a rendering uploaded, alongside the
original bytes. -/
theorem c7_useacls_page_renderings_witness :
    ({ baseFs with use_acls := true } : FileStrategy).use_acls
        = ({ baseArgs with useacls := true } : Args).useacls
      ∧ NetEffect.blobUpload docW.id
          ∈ (runAddDoc ({ baseFs with use_acls := true } : FileStrategy).embeddings
              true none 1000 stEmpty docW).2
      ∧ NetEffect.pageUpload docW.id 0
          ∈ (runAddDoc ({ baseFs with use_acls := true } : FileStrategy).embeddings
              true none 1000 stEmpty docW).2 := by
  have h := c7_useacls_page_renderings envNone { baseArgs with useacls := true }
    { baseFs with use_acls := true } rfl
  exact ⟨h.1, (h.2.1 rfl stEmpty docW).1, (h.2.1 rfl stEmpty docW).2 0 (by decide)⟩

/-- C8: for every document, the Text Splitter's sections concatenated in
ordinal order reconstruct the document's extracted text with no gaps, and
no section exceeds the configured (positive) maximum length. -/
theorem c8_splitter_reconstruction (ts : TextSplitter) (doc : SourceDocument)
    (h : 0 < ts.max_section_length) :
    (TextSplitter.split ts (extractedText doc)).flatten = extractedText doc
      ∧ ∀ c ∈ TextSplitter.split ts (extractedText doc),
          c.length ≤ ts.max_section_length :=
  ⟨splitText_flatten ts.max_section_length h (extractedText doc),
   splitText_length_le ts.max_section_length h (extractedText doc)⟩

/-- Witness for C8 at a concrete splitter bound and document: the sections
reconstruct the text and respect the bound. -/
theorem c8_splitter_reconstruction_witness :
    (TextSplitter.split { max_section_length := 2 } (extractedText docW)).flatten
        = extractedText docW
      ∧ ∀ c ∈ TextSplitter.split { max_section_length := 2 } (extractedText docW),
          c.length ≤ ({ max_section_length := 2 } : TextSplitter).max_section_length :=
  c8_splitter_reconstruction { max_section_length := 2 } docW (by decide)
